import Mathlib

/-!
Verification of the todo state-management core of the Momentum Tasks
single-page application (src/todo-app/src/app/page.tsx).

The development shallowly embeds the todo reducer, the derived views
(filtering, search, remaining count) and the persistence bridge
(hydration effect and write-back effect) as Lean definitions, and then
settles the frozen claims about them.

JavaScript strings are modelled as Lean String, JS arrays as List,
absent optional values as Option.none.
-/

namespace TodoApp

/-- The Todo record (type Todo in page.tsx).  The optional field
dueDate is an Option: none corresponds to the property being absent or
undefined. -/
structure Todo where
  id : String
  title : String
  notes : String
  dueDate : Option String
  completed : Bool
  createdAt : String
deriving DecidableEq, Repr

/-- A TypeScript value of type Partial of Todo: every field optional.
For dueDate the outer Option says whether the property is present in
the object, the inner Option is the (possibly undefined) value; a
present-but-undefined dueDate overwrites the target field with
undefined under object spread. -/
structure TodoPatch where
  id : Option String := none
  title : Option String := none
  notes : Option String := none
  dueDate : Option (Option String) := none
  completed : Option Bool := none
  createdAt : Option String := none
deriving DecidableEq, Repr

/-- Object spread of a patch over a todo, the braces-spread expression
in the update case of the reducer: fields present in the patch replace
the corresponding fields of the todo. -/
def mergeTodo (todo : Todo) (d : TodoPatch) : Todo :=
  { id := d.id.getD todo.id
    title := d.title.getD todo.title
    notes := d.notes.getD todo.notes
    dueDate := d.dueDate.getD todo.dueDate
    completed := d.completed.getD todo.completed
    createdAt := d.createdAt.getD todo.createdAt }

/-- The action vocabulary (type Action in page.tsx). -/
inductive Action where
  | hydrate (payload : List Todo)
  | add (payload : Todo)
  | toggle (id : String)
  | remove (id : String)
  | update (id : String) (data : TodoPatch)
  | clearCompleted
deriving DecidableEq, Repr

/-- Flip the completed flag of a todo when its id matches, the
callback of state.map in the toggle case. -/
def toggleOne (i : String) (todo : Todo) : Todo :=
  if todo.id = i then { todo with completed := !todo.completed } else todo

/-- Merge the patch into a todo when its id matches, the callback of
state.map in the update case. -/
def updateOne (i : String) (d : TodoPatch) (todo : Todo) : Todo :=
  if todo.id = i then mergeTodo todo d else todo

/-- The reducer todoReducer of page.tsx, translated case by case:
hydrate replaces the state, add prepends, toggle and update map over
the list, remove and clearCompleted filter it. -/
def todoReducer (state : List Todo) (action : Action) : List Todo :=
  match action with
  | .hydrate payload => payload
  | .add payload => payload :: state
  | .toggle i => state.map (toggleOne i)
  | .remove i => state.filter (fun todo => todo.id ≠ i)
  | .update i d => state.map (updateOne i d)
  | .clearCompleted => state.filter (fun todo => !todo.completed)

/-- The list of ids of a state, used to phrase id uniqueness. -/
def ids (state : List Todo) : List String :=
  state.map (fun todo => todo.id)

/-- Apply a sequence of actions in dispatch order, starting from a
given state (iterated todoReducer, as useReducer does). -/
def applyAll (state : List Todo) (actions : List Action) : List Todo :=
  actions.foldl todoReducer state

/-! ### Derived views: filter, search, remaining count -/

/-- The filter selector (type Filter in page.tsx). -/
inductive Filter where
  | all
  | active
  | completed
deriving DecidableEq, Repr

/-- JavaScript substring containment, String.prototype.includes, on
the character lists of the two strings: scan down the haystack and
test for a prefix of the needle at each position. -/
def charsIncludes (h q : List Char) : Bool :=
  if q.isPrefixOf h then true
  else
    match h with
    | [] => false
    | _ :: t => charsIncludes t q

/-- One todo's filter-and-search predicate, the callback of
todos.filter inside filteredTodos in page.tsx: the active filter
rejects completed todos, the completed filter rejects active ones; an
empty normalized query accepts everything else, otherwise the
haystack, title and notes joined by a space and lowercased, must
contain the query as a substring. -/
def filterSearchPred (filter : Filter) (normalizedQuery : String) (todo : Todo) : Bool :=
  if (filter == Filter.active) && todo.completed then false
  else if (filter == Filter.completed) && !todo.completed then false
  else if normalizedQuery = "" then true
  else charsIncludes ((todo.title ++ " " ++ todo.notes).toLower).data normalizedQuery.data

/-- The derived view filteredTodos of page.tsx: normalize the query
by trimming and lowercasing, then filter the todos. -/
def filteredTodos (todos : List Todo) (filter : Filter) (query : String) : List Todo :=
  todos.filter (filterSearchPred filter (query.trim.toLower))

/-- The derived count remainingCount of page.tsx: the number of todos
whose completed flag is false. -/
def remainingCount (todos : List Todo) : Nat :=
  (todos.filter (fun todo => !todo.completed)).length

/-! ### The serialization layer and the persistence bridge -/

/-- The fixed storage key STORAGE_KEY of page.tsx. -/
def STORAGE_KEY : String := "momentum-tasks"

/-- JSON values: the abstract syntax of the serialized storage blob.
The write path uses JSON.stringify and the read path JSON.parse, both
platform primitives, so serialization is modelled at the level of this
syntax tree rather than of the concrete character stream. -/
inductive Json where
  | null
  | bool (b : Bool)
  | num (n : Int)
  | str (s : String)
  | arr (elems : List Json)
  | obj (fields : List (String × Json))
deriving Repr

/-- The JSON encoding of one todo, the effect of JSON.stringify on a
Todo object: fields in declaration order, and an absent (undefined)
dueDate is omitted from the object rather than encoded as null. -/
def encodeTodo (t : Todo) : Json :=
  Json.obj
    ([("id", Json.str t.id), ("title", Json.str t.title), ("notes", Json.str t.notes)]
      ++ (match t.dueDate with
          | some d => [("dueDate", Json.str d)]
          | none => [])
      ++ [("completed", Json.bool t.completed), ("createdAt", Json.str t.createdAt)])

/-- The JSON encoding of a whole state: the array of the encodings of
its todos, in order. -/
def encodeState (s : List Todo) : Json :=
  Json.arr (s.map encodeTodo)

/-- First binding of a key in a JSON object's field list. -/
def lookupField (fields : List (String × Json)) (key : String) : Option Json :=
  match fields with
  | [] => none
  | (k, v) :: rest => if k = key then some v else lookupField rest key

/-- Read a JSON value as a string, failing on any other shape. -/
def asStr (j : Option Json) : Option String :=
  match j with
  | some (Json.str s) => some s
  | _ => none

/-- Read a JSON value as a boolean, failing on any other shape. -/
def asBool (j : Option Json) : Option Bool :=
  match j with
  | some (Json.bool b) => some b
  | _ => none

/-- Modelled from the spec: the code reads the parsed JSON back as a
Todo array with an unchecked type assertion (const parsed: Todo[] =
JSON.parse(stored)), so the typed reading of a parsed object as a Task
record follows the field encoding of the storage contract in spec
section 6: id, title, notes, createdAt strings, completed boolean,
dueDate an optional string whose absence means no due date. -/
def decodeTodo (j : Json) : Option Todo :=
  match j with
  | Json.obj fields =>
    match asStr (lookupField fields "id"), asStr (lookupField fields "title"),
          asStr (lookupField fields "notes"), asBool (lookupField fields "completed"),
          asStr (lookupField fields "createdAt") with
    | some i, some ti, some no, some c, some ca =>
      match lookupField fields "dueDate" with
      | none =>
        some { id := i, title := ti, notes := no, dueDate := none,
               completed := c, createdAt := ca }
      | some (Json.str d) =>
        some { id := i, title := ti, notes := no, dueDate := some d,
               completed := c, createdAt := ca }
      | some _ => none
    | _, _, _, _, _ => none
  | _ => none

/-- Modelled from the spec: the typed reading of a parsed JSON array
as a list of Task records, decoding each element in order and failing
if any element fails. -/
def decodeTodos (elems : List Json) : Option (List Todo) :=
  match elems with
  | [] => some []
  | j :: rest =>
    match decodeTodo j, decodeTodos rest with
    | some t, some ts => some (t :: ts)
    | _, _ => none

/-- Modelled from the spec: the typed reading of a parsed JSON value
as an ordered sequence of Task records (spec section 6), requiring an
array and decoding each element. -/
def decodeState (j : Json) : Option (List Todo) :=
  match j with
  | Json.arr elems => decodeTodos elems
  | _ => none

/-- The outcome of the startup read of the storage slot, as seen by
the hydration effect of useTodos: the read may throw, return null
(or the falsy empty string, which takes the same skip path), return a
string that JSON.parse rejects, or return a string that parses to a
JSON value. -/
inductive ReadResult where
  | failure
  | absent
  | malformed
  | value (j : Json)

/-- The session state of the persistence bridge of useTodos: the
reducer state, the one-way ready latch (hydrated), the content of the
single storage slot under STORAGE_KEY, and a log of the writes
performed so far, newest first, each tagged with the value of the
latch at the moment of the write. -/
structure SessionState where
  store : List Todo
  hydrated : Bool
  storage : Option Json
  writes : List (Bool × Json)

/-- The session state at startup: useReducer starts from the empty
list and the latch from false, no writes performed yet; the storage
slot may hold anything left by an earlier session. -/
def initialSession (s0 : Option Json) : SessionState :=
  { store := [], hydrated := false, storage := s0, writes := [] }

/-- The write-back effect of useTodos: if the latch is not set,
return without touching storage; otherwise serialize the full current
state and write it to the fixed slot, overwriting the prior value.
The log records the latch value at the moment of the write. -/
def writeBackEffect (st : SessionState) : SessionState :=
  if st.hydrated then
    { st with storage := some (encodeState st.store),
              writes := (st.hydrated, encodeState st.store) :: st.writes }
  else st

/-- The store update performed by the hydration effect of useTodos
for a given read outcome: a thrown read or a JSON.parse failure is
caught and dispatches nothing, a null or empty stored value is
skipped, and a parsed value is dispatched as a hydrate action.  A
parsed JSON value that is not an array of well-formed task objects is
outside this typed embedding (the code would dispatch it unchecked);
it is modelled as dispatching nothing. -/
def hydrationStore (store : List Todo) (r : ReadResult) : List Todo :=
  match r with
  | ReadResult.failure => store
  | ReadResult.absent => store
  | ReadResult.malformed => store
  | ReadResult.value j =>
    match decodeState j with
    | some ts => ts
    | none => store

/-- The events of one session: the hydration effect running with a
given read outcome, or a dispatch of an action from the UI.  After
either event the write-back effect runs again, because its
dependencies (the state reference, the latch) changed: the hydration
effect ends by setting the latch, and every reducer case reached by a
dispatch returns a fresh array. -/
inductive Event where
  | hydrationRun (r : ReadResult)
  | dispatch (a : Action)

/-- One step of the session: apply the event to the store (and, for
hydration, set the one-way latch), then run the write-back effect. -/
def stepEvent (st : SessionState) (e : Event) : SessionState :=
  match e with
  | Event.hydrationRun r =>
    writeBackEffect { st with store := hydrationStore st.store r, hydrated := true }
  | Event.dispatch a =>
    writeBackEffect { st with store := todoReducer st.store a }

/-- Run a whole session: fold the events, in order, over a starting
session state. -/
def runEvents (st : SessionState) (es : List Event) : SessionState :=
  es.foldl stepEvent st

/-! ### Sample data for witnesses and counterexamples -/

/-- A sample task, not completed, with no due date. -/
def sampleTodo : Todo :=
  { id := "a", title := "Buy milk", notes := "", dueDate := none,
    completed := false, createdAt := "2024-01-01T00:00:00.000Z" }

/-- A second sample task, completed, with a different id and a due
date. -/
def doneTodo : Todo :=
  { id := "b", title := "Ship report", notes := "q3", dueDate := some "2024-02-01",
    completed := true, createdAt := "2024-01-02T00:00:00.000Z" }

/-! ### Helper lemmas -/

theorem forall₂_map_self {α : Type} {R : α → α → Prop} (f : α → α) (s : List α)
    (h : ∀ t ∈ s, R t (f t)) : List.Forall₂ R s (s.map f) := by
  induction s with
  | nil => exact List.Forall₂.nil
  | cons a t ih =>
    exact List.Forall₂.cons (h a (by simp)) (ih (fun x hx => h x (by simp [hx])))

theorem toggleOne_id (i : String) (t : Todo) : (toggleOne i t).id = t.id := by
  unfold toggleOne
  by_cases h : t.id = i <;> simp [h]

theorem toggleOne_involutive (i : String) (t : Todo) :
    toggleOne i (toggleOne i t) = t := by
  unfold toggleOne
  by_cases h : t.id = i
  · have h2 : ({ t with completed := !t.completed } : Todo).id = i := h
    rw [if_pos h, if_pos h2, Bool.not_not]
  · rw [if_neg h, if_neg h]

theorem updateOne_id (i : String) (d : TodoPatch) (hid : d.id = none) (t : Todo) :
    (updateOne i d t).id = t.id := by
  unfold updateOne
  by_cases h : t.id = i <;> simp [h, mergeTodo, hid]

theorem ids_map (f : Todo → Todo) (s : List Todo) (h : ∀ t, (f t).id = t.id) :
    ids (s.map f) = ids s := by
  unfold ids
  rw [List.map_map]
  exact List.map_congr_left (fun a _ => h a)

/-! ### Claims -/

/-- C5: the add transition places the new task at index 0 and shifts
every existing task down by one in their prior order (the result is
the cons of the new task onto the prior state); toggle and update
keep every task at its position, each either unchanged or replaced by
its toggled or merged version; remove and clearCompleted return a
sublist of the prior state, so the retained tasks keep their relative
order; hydrate, excepted by the claim, replaces the state. -/
theorem orderPreservation (s : List Todo) (t : Todo) (i : String) (d : TodoPatch) :
    todoReducer s (Action.add t) = t :: s
    ∧ List.Forall₂ (fun a b => b = a ∨ b = { a with completed := !a.completed }) s
        (todoReducer s (Action.toggle i))
    ∧ List.Forall₂ (fun a b => b = a ∨ b = mergeTodo a d) s
        (todoReducer s (Action.update i d))
    ∧ List.Sublist (todoReducer s (Action.remove i)) s
    ∧ List.Sublist (todoReducer s Action.clearCompleted) s := by
  refine ⟨rfl, ?_, ?_, List.filter_sublist s, List.filter_sublist s⟩
  · apply forall₂_map_self
    intro x _
    unfold toggleOne
    by_cases h : x.id = i <;> simp [h]
  · apply forall₂_map_self
    intro x _
    unfold updateOne
    by_cases h : x.id = i <;> simp [h]

/-- C6: the state returned by clearCompleted contains no task whose
completed flag is true, and it is a sublist of the prior state, so
every retained task is unchanged field for field and appears in its
prior relative order. -/
theorem clearCompletedSpec (s : List Todo) :
    (∀ t ∈ todoReducer s Action.clearCompleted, t.completed = false)
    ∧ List.Sublist (todoReducer s Action.clearCompleted) s := by
  constructor
  · intro t ht
    have := List.mem_filter.mp ht
    simpa using this.2
  · exact List.filter_sublist s

theorem clearCompletedSpec_witness :
    sampleTodo.completed = false
    ∧ List.Sublist (todoReducer [sampleTodo, doneTodo] Action.clearCompleted)
        [sampleTodo, doneTodo] :=
  ⟨(clearCompletedSpec [sampleTodo, doneTodo]).1 sampleTodo (by decide),
   (clearCompletedSpec [sampleTodo, doneTodo]).2⟩

/-- C7: for an id present in the state, applying the toggle
transition with that id twice in succession yields the state before
either application (toggling is an involution; the matching task's
completed flag is flipped twice and every other task is untouched). -/
theorem toggleInvolution (s : List Todo) (i : String) (h : i ∈ ids s) :
    todoReducer (todoReducer s (Action.toggle i)) (Action.toggle i) = s := by
  show (s.map (toggleOne i)).map (toggleOne i) = s
  rw [List.map_map]
  have : ∀ t ∈ s, (toggleOne i ∘ toggleOne i) t = id t := by
    intro t _
    exact toggleOne_involutive i t
  rw [List.map_congr_left this, List.map_id]

theorem toggleInvolution_witness :
    todoReducer (todoReducer [sampleTodo] (Action.toggle "a")) (Action.toggle "a")
      = [sampleTodo] :=
  toggleInvolution [sampleTodo] "a" (by decide)

/-- C8: every transition is a pure total function of state and action
(todoReducer is a total Lean function, so determinism and absence of
failure are inherent to the embedding), and for an id absent from the
state the toggle, remove and update transitions return the state
unchanged: the maps find no matching task and the remove filter keeps
every task. -/
theorem absentIdNoOp (s : List Todo) (i : String) (d : TodoPatch) (h : i ∉ ids s) :
    todoReducer s (Action.toggle i) = s
    ∧ todoReducer s (Action.remove i) = s
    ∧ todoReducer s (Action.update i d) = s := by
  have hid : ∀ t ∈ s, t.id ≠ i := by
    intro t ht hcontra
    exact h (hcontra ▸ List.mem_map_of_mem (fun todo => todo.id) ht)
  refine ⟨?_, ?_, ?_⟩
  · show s.map (toggleOne i) = s
    have : ∀ t ∈ s, toggleOne i t = id t := by
      intro t ht
      unfold toggleOne
      simp [hid t ht]
    rw [List.map_congr_left this, List.map_id]
  · show s.filter (fun todo => todo.id ≠ i) = s
    rw [List.filter_eq_self]
    intro t ht
    simpa using hid t ht
  · show s.map (updateOne i d) = s
    have : ∀ t ∈ s, updateOne i d t = id t := by
      intro t ht
      unfold updateOne
      simp [hid t ht]
    rw [List.map_congr_left this, List.map_id]

theorem absentIdNoOp_witness :
    todoReducer [sampleTodo] (Action.toggle "zz") = [sampleTodo]
    ∧ todoReducer [sampleTodo] (Action.remove "zz") = [sampleTodo]
    ∧ todoReducer [sampleTodo] (Action.update "zz" {}) = [sampleTodo] :=
  absentIdNoOp [sampleTodo] "zz" {} (by decide)

/-- The side condition under which one transition preserves id
uniqueness: a hydrate payload must itself have pairwise-distinct ids,
an added task's id must not already be present, and an update's
partial must not set the id field; the other transitions need no
condition.  The reducer itself never checks any of this. -/
def idSafe (s : List Todo) (a : Action) : Prop :=
  match a with
  | Action.hydrate payload => (ids payload).Nodup
  | Action.add t => t.id ∉ ids s
  | Action.update _ d => d.id = none
  | _ => True

/-- The idSafe side condition holding at every step of a run. -/
def safeRun (s : List Todo) (as : List Action) : Prop :=
  match as with
  | [] => True
  | a :: rest => idSafe s a ∧ safeRun (todoReducer s a) rest

/-- C1, as stated, is false: the reducer's add case prepends the
given task without checking its id against the state, so adding the
same task twice from the empty state yields duplicate ids. -/
theorem uniqueIds_counterexample :
    ¬ (ids (applyAll [] [Action.add sampleTodo, Action.add sampleTodo])).Nodup := by
  decide

/-- C1 amended: starting from any state with pairwise-distinct ids
(the empty state in particular), id uniqueness holds after every
transition of a sequence, provided every hydrate payload in the
sequence has pairwise-distinct ids, every added task's id is not
already present, and no update partial sets the id field.  Quantifying
over all action sequences covers every prefix, hence every
intermediate state of a run. -/
theorem uniqueIds_invariant (as : List Action) (s : List Todo)
    (h1 : (ids s).Nodup) (h2 : safeRun s as) : (ids (applyAll s as)).Nodup := by
  induction as generalizing s with
  | nil => exact h1
  | cons a rest ih =>
    refine ih (todoReducer s a) ?_ h2.2
    have hsafe := h2.1
    cases a with
    | hydrate payload => exact hsafe
    | add t =>
      show (ids (t :: s)).Nodup
      rw [show ids (t :: s) = t.id :: ids s from rfl, List.nodup_cons]
      exact ⟨hsafe, h1⟩
    | toggle i =>
      show (ids (s.map (toggleOne i))).Nodup
      rw [ids_map (toggleOne i) s (toggleOne_id i)]
      exact h1
    | remove i =>
      have : List.Sublist ((s.filter (fun todo => todo.id ≠ i)).map (fun todo => todo.id))
          (s.map (fun todo => todo.id)) :=
        List.Sublist.map (fun todo => todo.id) (List.filter_sublist s)
      exact this.nodup h1
    | update i d =>
      show (ids (s.map (updateOne i d))).Nodup
      rw [ids_map (updateOne i d) s (updateOne_id i d hsafe)]
      exact h1
    | clearCompleted =>
      have : List.Sublist ((s.filter (fun todo => !todo.completed)).map (fun todo => todo.id))
          (s.map (fun todo => todo.id)) :=
        List.Sublist.map (fun todo => todo.id) (List.filter_sublist s)
      exact this.nodup h1

theorem uniqueIds_invariant_witness :
    (ids (applyAll [] [Action.add sampleTodo, Action.add doneTodo])).Nodup :=
  uniqueIds_invariant [Action.add sampleTodo, Action.add doneTodo] [] (by decide)
    ⟨show sampleTodo.id ∉ ids [] by decide,
     show doneTodo.id ∉ ids (todoReducer [] (Action.add sampleTodo)) by decide,
     trivial⟩

/-- The frame relation of C2: the identity of a task, its id and its
createdAt timestamp, is preserved. -/
def sameIdentity (t t' : Todo) : Prop :=
  t'.id = t.id ∧ t'.createdAt = t.createdAt

/-- C2, as stated, is false: the update payload has type Partial of
Todo, which includes the id and createdAt fields, and the reducer
merges it with an unrestricted object spread, so an update whose
partial carries an id replaces the matching task's id. -/
theorem updateFrame_counterexample :
    ids (todoReducer [sampleTodo] (Action.update "a" { id := some "zz" })) = ["zz"]
    ∧ sampleTodo.id = "a" := by
  decide

/-- C2 amended: an update whose partial does not set id or createdAt
changes at most the title, notes, dueDate and completed fields of the
matching task, keeps every task at its position, and leaves every
non-matching task unchanged; toggle changes at most the completed
flag of matching tasks; remove and clearCompleted return sublists, so
the tasks they retain are unchanged; and add leaves all existing
tasks as the unchanged tail of the result.  Under such partials no
transition ever changes an existing task's id or createdAt. -/
theorem updateFrame (s : List Todo) (i : String) (d : TodoPatch) (t : Todo)
    (hid : d.id = none) (hca : d.createdAt = none) :
    List.Forall₂
      (fun a b => sameIdentity a b ∧ (a.id ≠ i → b = a)) s
      (todoReducer s (Action.update i d))
    ∧ List.Forall₂
      (fun a b => sameIdentity a b ∧ b.title = a.title ∧ b.notes = a.notes
        ∧ b.dueDate = a.dueDate) s
      (todoReducer s (Action.toggle i))
    ∧ List.Sublist (todoReducer s (Action.remove i)) s
    ∧ List.Sublist (todoReducer s Action.clearCompleted) s
    ∧ todoReducer s (Action.add t) = t :: s := by
  refine ⟨?_, ?_, List.filter_sublist s, List.filter_sublist s, rfl⟩
  · apply forall₂_map_self
    intro x _
    unfold updateOne
    by_cases h : x.id = i
    · rw [if_pos h]
      exact ⟨⟨by simp [mergeTodo, hid], by simp [mergeTodo, hca]⟩, fun hne => absurd h hne⟩
    · rw [if_neg h]
      exact ⟨⟨rfl, rfl⟩, fun _ => rfl⟩
  · apply forall₂_map_self
    intro x _
    unfold toggleOne
    by_cases h : x.id = i
    · rw [if_pos h]
      exact ⟨⟨rfl, rfl⟩, rfl, rfl, rfl⟩
    · rw [if_neg h]
      exact ⟨⟨rfl, rfl⟩, rfl, rfl, rfl⟩

theorem updateFrame_witness :
    List.Forall₂
      (fun a b => sameIdentity a b ∧ (a.id ≠ "a" → b = a)) [sampleTodo]
      (todoReducer [sampleTodo]
        (Action.update "a" { title := some "Buy oat milk" })) :=
  (updateFrame [sampleTodo] "a" { title := some "Buy oat milk" } doneTodo rfl rfl).1

/-! ### The hydration and write-back claims -/

theorem writeBackEffect_hydrated (st : SessionState) :
    (writeBackEffect st).hydrated = st.hydrated := by
  unfold writeBackEffect
  split <;> rfl

/-- Every write logged so far was performed with the latch set. -/
def writesOk (st : SessionState) : Prop :=
  ∀ w ∈ st.writes, w.1 = true

theorem writesOk_writeBack (st : SessionState) (h : writesOk st) :
    writesOk (writeBackEffect st) := by
  unfold writeBackEffect
  by_cases hh : st.hydrated = true
  · rw [if_pos hh]
    intro w hw
    rcases List.mem_cons.mp hw with h1 | h2
    · rw [h1]
      exact hh
    · exact h w h2
  · rw [if_neg hh]
    exact h

theorem writesOk_step (st : SessionState) (e : Event) (h : writesOk st) :
    writesOk (stepEvent st e) := by
  cases e with
  | hydrationRun r =>
    exact writesOk_writeBack _ (fun w hw => h w hw)
  | dispatch a =>
    exact writesOk_writeBack _ (fun w hw => h w hw)

theorem writesOk_run (es : List Event) (st : SessionState) (h : writesOk st) :
    writesOk (runEvents st es) := by
  induction es generalizing st with
  | nil => exact h
  | cons e rest ih => exact ih _ (writesOk_step st e h)

/-- C3: along every session run from startup, every write to the
storage slot is performed with the ready latch set (the write-back
effect returns immediately while the latch is false); from any
session state with the latch set, a dispatch serializes the full new
store and writes it to the single slot, overwriting whatever was
there, and logs exactly one write; and the latch is one-way: once
set, no event clears it. -/
theorem persistenceContract (s0 : Option Json) (es : List Event) (st : SessionState)
    (a : Action) (e : Event) :
    (∀ w ∈ (runEvents (initialSession s0) es).writes, w.1 = true)
    ∧ (st.hydrated = true →
        (stepEvent st (Event.dispatch a)).storage
            = some (encodeState (todoReducer st.store a))
          ∧ (stepEvent st (Event.dispatch a)).writes
            = (true, encodeState (todoReducer st.store a)) :: st.writes)
    ∧ (st.hydrated = true → (stepEvent st e).hydrated = true) := by
  refine ⟨writesOk_run es (initialSession s0) (fun w hw => absurd hw (by simp [initialSession])),
    ?_, ?_⟩
  · intro hh
    have hh2 : ({ st with store := todoReducer st.store a } : SessionState).hydrated = true := hh
    show (writeBackEffect { st with store := todoReducer st.store a }).storage = _
      ∧ (writeBackEffect { st with store := todoReducer st.store a }).writes = _
    unfold writeBackEffect
    rw [if_pos hh2]
    exact ⟨rfl, by simp [hh]⟩
  · intro hh
    cases e with
    | hydrationRun r =>
      show (writeBackEffect _).hydrated = true
      rw [writeBackEffect_hydrated]
    | dispatch a2 =>
      show (writeBackEffect { st with store := todoReducer st.store a2 }).hydrated = true
      rw [writeBackEffect_hydrated]
      exact hh

/-- A session state whose latch is already set, used to instantiate
the dispatch part of the write-back contract. -/
def hydratedSession : SessionState :=
  { store := [], hydrated := true, storage := none, writes := [] }

theorem persistenceContract_witness :
    ((true, encodeState [sampleTodo]) : Bool × Json).1 = true
    ∧ (stepEvent hydratedSession (Event.dispatch (Action.add sampleTodo))).storage
        = some (encodeState [sampleTodo]) := by
  have h := persistenceContract none
    [Event.hydrationRun ReadResult.absent, Event.dispatch (Action.add sampleTodo)]
    hydratedSession (Action.add sampleTodo) (Event.dispatch (Action.add sampleTodo))
  refine ⟨h.1 (true, encodeState [sampleTodo]) ?_, ?_⟩
  · exact List.mem_cons_self _ _
  · exact (h.2.1 rfl).1

/-- C4: if at startup the storage read throws, the stored value is
absent (or falsy), or the stored value is malformed JSON (so that
JSON.parse throws and the catch block runs), then after the hydration
effect the store is the empty collection and the ready latch is
nevertheless set; the embedding is a total function, so no exception
escapes. -/
theorem hydrationFallback (s0 : Option Json) (r : ReadResult)
    (h : r = ReadResult.failure ∨ r = ReadResult.absent ∨ r = ReadResult.malformed) :
    (stepEvent (initialSession s0) (Event.hydrationRun r)).store = []
    ∧ (stepEvent (initialSession s0) (Event.hydrationRun r)).hydrated = true := by
  rcases h with h | h | h <;> rw [h] <;> exact ⟨rfl, rfl⟩

theorem hydrationFallback_witness :
    (stepEvent (initialSession none) (Event.hydrationRun ReadResult.malformed)).store = []
    ∧ (stepEvent (initialSession none)
        (Event.hydrationRun ReadResult.malformed)).hydrated = true :=
  hydrationFallback none ReadResult.malformed (Or.inr (Or.inr rfl))

/-! ### The round-trip claim -/

theorem decodeTodo_encodeTodo (t : Todo) : decodeTodo (encodeTodo t) = some t := by
  cases t with
  | mk i ti no dd c ca =>
    cases dd with
    | none => rfl
    | some d => rfl

theorem decodeState_encodeState (s : List Todo) : decodeState (encodeState s) = some s := by
  have : ∀ ts : List Todo, decodeTodos (ts.map encodeTodo) = some ts := by
    intro ts
    induction ts with
    | nil => rfl
    | cons t rest ih =>
      show decodeTodos (encodeTodo t :: rest.map encodeTodo) = some (t :: rest)
      unfold decodeTodos
      rw [decodeTodo_encodeTodo, ih]
  exact this s

/-- C9: serializing a state and deserializing the result yields the
state back, and hydrating with the deserialized sequence replaces the
store with exactly that sequence, for every state (hence for every
reachable state); moreover a task without a due date is encoded as an
object with no dueDate field at all, not as a null placeholder. -/
theorem serializeRoundTrip (s : List Todo) (prior : List Todo) (t : Todo)
    (h : t.dueDate = none) :
    decodeState (encodeState s) = some s
    ∧ todoReducer prior (Action.hydrate s) = s
    ∧ encodeTodo t
        = Json.obj [("id", Json.str t.id), ("title", Json.str t.title),
            ("notes", Json.str t.notes), ("completed", Json.bool t.completed),
            ("createdAt", Json.str t.createdAt)] := by
  refine ⟨decodeState_encodeState s, rfl, ?_⟩
  unfold encodeTodo
  rw [h]
  rfl

/-! ### The derived-view claim -/

theorem charsIncludes_iff (h q : List Char) : charsIncludes h q = true ↔ q <:+: h := by
  induction h with
  | nil =>
    rw [charsIncludes]
    by_cases hc : q.isPrefixOf ([] : List Char) = true
    · rw [if_pos hc]
      simp only [true_iff]
      exact (List.isPrefixOf_iff_prefix.mp hc).isInfix
    · rw [if_neg hc]
      constructor
      · intro hfalse
        cases hfalse
      · intro hi
        have hq : q = [] := List.eq_nil_of_infix_nil hi
        subst hq
        simp [List.isPrefixOf] at hc
  | cons a t ih =>
    rw [charsIncludes]
    by_cases hc : q.isPrefixOf (a :: t) = true
    · rw [if_pos hc]
      simp only [true_iff]
      exact (List.isPrefixOf_iff_prefix.mp hc).isInfix
    · rw [if_neg hc, ih]
      constructor
      · intro hi
        exact hi.trans (List.infix_cons (List.infix_refl t))
      · rintro ⟨s, u, hsu⟩
        cases s with
        | nil =>
          exfalso
          apply hc
          rw [List.isPrefixOf_iff_prefix]
          exact ⟨u, by simpa using hsu⟩
        | cons b s' =>
          refine ⟨s', u, ?_⟩
          simp only [List.cons_append, List.cons.injEq] at hsu
          exact hsu.2

theorem filterSearchPred_iff (filter : Filter) (nq : String) (t : Todo) :
    filterSearchPred filter nq t = true ↔
      (filter = Filter.all ∨ (filter = Filter.active ∧ t.completed = false)
        ∨ (filter = Filter.completed ∧ t.completed = true))
      ∧ (nq = "" ∨ List.IsInfix nq.data ((t.title ++ " " ++ t.notes).toLower).data) := by
  unfold filterSearchPred
  cases filter <;> cases hc : t.completed <;> by_cases hq : nq = "" <;>
    simp [hq, hc, charsIncludes_iff]

/-- C10: a task appears in the derived filtered view exactly when it
is in the list, passes the all or active or completed filter against
its completed flag, and, unless the trimmed lowercased query is
empty, that normalized query is a substring of the lowercased
concatenation of its title and notes (joined by a space, as the
template literal in the code does); and the remaining count is the
number of tasks whose completed flag is false. -/
theorem filteredView (todos : List Todo) (filter : Filter) (query : String) (t : Todo) :
    (t ∈ filteredTodos todos filter query ↔
      t ∈ todos
      ∧ (filter = Filter.all ∨ (filter = Filter.active ∧ t.completed = false)
          ∨ (filter = Filter.completed ∧ t.completed = true))
      ∧ (query.trim.toLower = ""
          ∨ List.IsInfix (query.trim.toLower).data
              ((t.title ++ " " ++ t.notes).toLower).data))
    ∧ remainingCount todos = List.countP (fun todo => !todo.completed) todos := by
  constructor
  · unfold filteredTodos
    rw [List.mem_filter, filterSearchPred_iff]
  · unfold remainingCount
    exact (List.countP_eq_length_filter _ _).symm

theorem serializeRoundTrip_witness :
    decodeState (encodeState [sampleTodo, doneTodo]) = some [sampleTodo, doneTodo]
    ∧ todoReducer [] (Action.hydrate [sampleTodo, doneTodo]) = [sampleTodo, doneTodo]
    ∧ encodeTodo sampleTodo
        = Json.obj [("id", Json.str sampleTodo.id), ("title", Json.str sampleTodo.title),
            ("notes", Json.str sampleTodo.notes),
            ("completed", Json.bool sampleTodo.completed),
            ("createdAt", Json.str sampleTodo.createdAt)] :=
  serializeRoundTrip [sampleTodo, doneTodo] [] sampleTodo rfl

end TodoApp
